import Mathlib

/-!
Shallow embedding of `debt_sim.py` and verification of its specification.

Numbers are modelled as rationals.  Pandas series are modelled positionally
as `List ℚ`: the period index is a shared strictly increasing sequence of
business-month-end dates, so label-based alignment coincides with
positional alignment.  The unbounded `while` loops of the source are
modelled with explicit fuel; `none` means the loop did not finish within
the given fuel, so a result of `none` for every fuel models an infinite
loop.  Python runtime errors (an `IndexError`, or the `NameError` on the
unbound `new_bal` when the amortization loop runs zero times) are
modelled as `none` / dedicated error values.
-/

/-- Failure modes of the strategy comparators: the `assert` on the
return-series length (`InsufficientPeriods`), a loop that does not finish
within the available fuel (the source would hang), and an indexing error
the source would raise. -/
inductive SimError where
  | insufficientPeriods
  | nonTermination
  | indexError
deriving DecidableEq

/-- One step of the balance recurrence of the source:
`new_bal = debt * (1. + int_rate / 12.) - debt_payment`. -/
def balStep (int_rate debt_payment debt : ℚ) : ℚ :=
  debt * (1 + int_rate / 12) - debt_payment

/-- Balance after `n` iterations of the recurrence, starting from
`debt_amount`. -/
def iterBal (int_rate debt_payment debt_amount : ℚ) : ℕ → ℚ
  | 0 => debt_amount
  | n + 1 => balStep int_rate debt_payment (iterBal int_rate debt_payment debt_amount n)

/-- The `while debt > 0.` loop of `payoff_nmonths`, with explicit fuel. -/
def payoffLoop (int_rate debt_payment : ℚ) : ℕ → ℚ → ℕ → Option ℕ
  | 0, debt, month => if 0 < debt then none else some month
  | fuel + 1, debt, month =>
    if 0 < debt then
      payoffLoop int_rate debt_payment fuel (balStep int_rate debt_payment debt) (month + 1)
    else some month

/-- `payoff_nmonths(debt_amount, debt_payment, int_rate)` from the source:
iterate the balance recurrence from `debt_amount`, counting months, until
the balance is no longer positive. -/
def payoff_nmonths (debt_amount debt_payment int_rate : ℚ) (fuel : ℕ) : Option ℕ :=
  payoffLoop int_rate debt_payment fuel debt_amount 0

/-- Overwrite the last element of a list (`xs[-1] = v` in the source);
`none` on the empty list, where the source raises. -/
def setLast (xs : List ℚ) (v : ℚ) : Option (List ℚ) :=
  match xs with
  | [] => none
  | [_] => some [v]
  | x :: y :: rest => (setLast (y :: rest) v).map (x :: ·)

/-- Overwrite the first element of a list (`xs[0] = v` in the source);
`none` on the empty list, where the source raises. -/
def setFirst (xs : List ℚ) (v : ℚ) : Option (List ℚ) :=
  match xs with
  | [] => none
  | _ :: rest => some (v :: rest)

/-- The loop of `debt_schedule`: accumulates every intermediate balance and
payment, and returns the lists together with the final value of the loop
variable `debt` (equal to the last `new_bal` when at least one iteration
ran) and the month counter. -/
def debtLoop (int_rate debt_payment : ℚ) :
    ℕ → ℚ → List ℚ → List ℚ → ℕ → Option (List ℚ × List ℚ × ℚ × ℕ)
  | 0, debt, bals, paid, month =>
    if 0 < debt then none else some (bals, paid, debt, month)
  | fuel + 1, debt, bals, paid, month =>
    if 0 < debt then
      let new_bal := balStep int_rate debt_payment debt
      debtLoop int_rate debt_payment fuel new_bal (bals ++ [new_bal])
        (paid ++ [debt_payment]) (month + 1)
    else some (bals, paid, debt, month)

/-- The two columns of the DataFrame produced by `debt_schedule`. -/
structure DebtSchedule where
  loan_schedule : List ℚ
  payment : List ℚ
deriving DecidableEq

/-- `debt_schedule(start_date, debt_amount, int_rate, debt_payment)` from
the source, with the date index represented positionally.  The loop starts
from the lists `[debt_amount]` and `[0.]`; after the loop the last balance
is overwritten with `0.` and the last payment with
`debt_payment + new_bal`.  With zero iterations the source raises
`NameError` on the unbound `new_bal`, modelled as `none`. -/
def debt_schedule (debt_amount int_rate debt_payment : ℚ) (fuel : ℕ) :
    Option DebtSchedule :=
  match debtLoop int_rate debt_payment fuel debt_amount [debt_amount] [0] 0 with
  | none => none
  | some (bals, paid, new_bal, month) =>
    if month = 0 then none
    else
      match setLast bals 0, setLast paid (debt_payment + new_bal) with
      | some bals2, some paid2 => some ⟨bals2, paid2⟩
      | _, _ => none

/-- The loop of `inv_schedule`: walks the return path from its second
entry, reading contributions positionally (`inv_payments[i]`); running out
of contributions is an `IndexError` in the source, modelled as `none`. -/
def invLoop : List ℚ → List ℚ → ℚ → Option (List ℚ)
  | _, [], _ => some []
  | c :: cs, r :: rs, value =>
    (invLoop cs rs ((c + value) * (1 + r))).map ((c + value) * (1 + r) :: ·)
  | [], _ :: _, _ => none

/-- `inv_schedule(inv_payments, inv_path)` from the source: value `0.` at
the first period of the path, then
`value = (inv_payments[i] + value) * (1 + inv_path[date])` for each later
period; `none` on an empty path, where the source raises on `index[0]`. -/
def inv_schedule (inv_payments inv_path : List ℚ) : Option (List ℚ) :=
  match inv_path with
  | [] => none
  | _ :: rest => (invLoop inv_payments rest 0).map (0 :: ·)

/-- Total description of the list of values produced by `invLoop`, used to
state its behaviour when the contributions do not run out. -/
def invVals : List ℚ → List ℚ → ℚ → List ℚ
  | _, [], _ => []
  | c :: cs, r :: rs, value =>
    (c + value) * (1 + r) :: invVals cs rs ((c + value) * (1 + r))
  | [], _ :: _, _ => []

/-- Running cumulative sums (`numpy.cumsum`), starting from an
accumulator. -/
def cumsumFrom (acc : ℚ) : List ℚ → List ℚ
  | [] => []
  | x :: xs => (acc + x) :: cumsumFrom (acc + x) xs

/-- `gen_gbm_price_series(num_years, N, price_0, vol, drift)` from the
source.  The transcendental functions `exp` and `sqrt` and the
standard-normal draws of `numpy.random.randn(N)` are passed in explicitly
as the parameters `expf`, `sqrtf` and `shocks`. -/
def gen_gbm_price_series (expf sqrtf : ℚ → ℚ) (num_years : ℚ) (N : ℕ)
    (price_0 vol drift : ℚ) (shocks : List ℚ) : List ℚ :=
  let dt := num_years / (N : ℚ)
  let e1 := (drift - 1/2 * vol ^ 2) * dt
  let e2 := vol * sqrtf dt
  let cum_shocks := cumsumFrom 0 shocks
  let cum_drift := (List.range N).map (fun i : ℕ => ((i : ℚ) + 1))
  let path := List.zipWith (fun d s => price_0 * expf (d * e1 + s * e2)) cum_drift cum_shocks
  price_0 :: path.dropLast

/-- Pad a column with zeros on the right up to length `n` (the effect of
the outer join of `pandas.concat` followed by `fillna(0.)` on a column
whose index is an initial segment of the merged index). -/
def padTo (n : ℕ) (xs : List ℚ) : List ℚ :=
  xs ++ List.replicate (n - xs.length) 0

/-- Index of the first entry equal to 0 in a column. -/
def firstZeroIdx : List ℚ → Option ℕ
  | [] => none
  | x :: xs => if x = 0 then some 0 else (firstZeroIdx xs).map (· + 1)

/-- The three columns of the merged table returned by the comparators. -/
structure AggTable where
  loan_schedule : List ℚ
  payment : List ℚ
  inv_value : List ℚ
deriving DecidableEq

/-- The contribution series built by `conc_payout` (source lines 41-46):
`inv_a` is `debt_payment + excess_inv` over the first `len(dbt_sched)`
return periods, its last entry is overwritten with
`debt_payment - dbt_pymnts[-1] + excess_inv + debt_payment`, and `inv_b`
extends it with `debt_payment + excess_inv + debt_payment` over the
remaining return periods. -/
def conc_contributions (rsLen : ℕ) (debt_amount int_rate debt_payment excess_inv : ℚ)
    (fuel : ℕ) : Option (List ℚ) :=
  match debt_schedule debt_amount int_rate debt_payment fuel with
  | none => none
  | some dbt_sched =>
    match dbt_sched.payment.getLast? with
    | none => none
    | some lastPay =>
      let inv_a := List.replicate (min dbt_sched.loan_schedule.length rsLen)
        (debt_payment + excess_inv)
      match setLast inv_a (debt_payment - lastPay + excess_inv + debt_payment) with
      | none => none
      | some inv_a2 =>
        some (inv_a2 ++ List.replicate (rsLen - dbt_sched.payment.length)
          (debt_payment + excess_inv + debt_payment))

/-- `conc_payout(return_series, debt_amount, int_rate, debt_payment,
excess_inv)` from the source: nominal-payment amortization alongside
investment of `debt_payment + excess_inv` (doubling up after payoff),
merged into one table with absent cells filled with 0. -/
def conc_payout (return_series : List ℚ) (debt_amount int_rate debt_payment excess_inv : ℚ)
    (fuel : ℕ) : Except SimError AggTable :=
  match payoff_nmonths debt_amount debt_payment int_rate fuel with
  | none => .error .nonTermination
  | some n_months =>
    if return_series.length ≤ n_months then .error .insufficientPeriods
    else
      match debt_schedule debt_amount int_rate debt_payment fuel with
      | none => .error .nonTermination
      | some dbt_sched =>
        match conc_contributions return_series.length debt_amount int_rate debt_payment
            excess_inv fuel with
        | none => .error .indexError
        | some inv_payment =>
          match inv_schedule inv_payment return_series with
          | none => .error .indexError
          | some inv_sched =>
            let L := max dbt_sched.loan_schedule.length inv_sched.length
            .ok ⟨padTo L dbt_sched.loan_schedule, padTo L dbt_sched.payment,
              padTo L inv_sched⟩

/-- The contribution series built by `loans_first_payout` (source lines
82-84): `2. * debt_payment + excess_inv` over the return periods from
position `len(dbt_sched) - 1` on, with the first entry overwritten with
`debt_payment - dbt_pymnts[-1] + excess_inv`.  The amortization schedule
used here is the accelerated one, run with payment
`2. * debt_payment + excess_inv`. -/
def loans_first_contributions (rsLen : ℕ)
    (debt_amount int_rate debt_payment excess_inv : ℚ) (fuel : ℕ) : Option (List ℚ) :=
  match debt_schedule debt_amount int_rate (2 * debt_payment + excess_inv) fuel with
  | none => none
  | some dbt_sched =>
    match dbt_sched.payment.getLast? with
    | none => none
    | some lastPay =>
      let inv0 := List.replicate (rsLen - (dbt_sched.loan_schedule.length - 1))
        (2 * debt_payment + excess_inv)
      setFirst inv0 (debt_payment - lastPay + excess_inv)

/-- `loans_first_payout(return_series, debt_amount, int_rate, debt_payment,
excess_inv)` from the source: accelerated amortization with payment
`2. * debt_payment + excess_inv`, then investment over the sub-range of the
return series starting at the payoff period, merged into one table with
absent cells filled with 0.  Note the length `assert` uses the horizon of
the nominal payment, as in the source. -/
def loans_first_payout (return_series : List ℚ)
    (debt_amount int_rate debt_payment excess_inv : ℚ) (fuel : ℕ) :
    Except SimError AggTable :=
  match payoff_nmonths debt_amount debt_payment int_rate fuel with
  | none => .error .nonTermination
  | some n_months =>
    if return_series.length ≤ n_months then .error .insufficientPeriods
    else
      match debt_schedule debt_amount int_rate (2 * debt_payment + excess_inv) fuel with
      | none => .error .nonTermination
      | some dbt_sched =>
        match loans_first_contributions return_series.length debt_amount int_rate
            debt_payment excess_inv fuel with
        | none => .error .indexError
        | some inv =>
          match inv_schedule inv (return_series.drop (dbt_sched.loan_schedule.length - 1)) with
          | none => .error .indexError
          | some inv_vals =>
            let invCol := List.replicate (dbt_sched.loan_schedule.length - 1) 0 ++ inv_vals
            let L := max dbt_sched.loan_schedule.length invCol.length
            .ok ⟨padTo L dbt_sched.loan_schedule, padTo L dbt_sched.payment, padTo L invCol⟩

/-- `n` is the payoff horizon of the loan: the first month at which the
iterated balance is no longer positive. -/
def PayoffMonths (int_rate debt_payment debt_amount : ℚ) (n : ℕ) : Prop :=
  iterBal int_rate debt_payment debt_amount n ≤ 0 ∧
    ∀ k < n, 0 < iterBal int_rate debt_payment debt_amount k

/-- The balances recorded by `debt_schedule` for a loan with payoff horizon
`n`: the iterated balances for months `0, …, n-1`, then the final balance
overwritten with 0. -/
def schedBalances (int_rate debt_payment debt_amount : ℚ) (n : ℕ) : List ℚ :=
  (List.range n).map (iterBal int_rate debt_payment debt_amount) ++ [0]

/-- The payments recorded by `debt_schedule` for a loan with payoff horizon
`n ≥ 1`: 0 at month 0, the nominal payment at months `1, …, n-1`, and the
clipped final payment `debt_payment + iterBal … n` at month `n`. -/
def schedPayments (int_rate debt_payment debt_amount : ℚ) (n : ℕ) : List ℚ :=
  (0 :: List.replicate (n - 1) debt_payment) ++
    [debt_payment + iterBal int_rate debt_payment debt_amount n]

/-- The successive balances appended by the loop of `debt_schedule`,
starting from balance `b`: months `1, …, n` of the iteration. -/
def balTrace (int_rate debt_payment b : ℚ) (n : ℕ) : List ℚ :=
  (List.range n).map (fun k => iterBal int_rate debt_payment b (k + 1))

/-! ### Basic facts about the balance iteration -/

theorem iterBal_step_comm (r p b : ℚ) (k : ℕ) :
    iterBal r p (balStep r p b) k = iterBal r p b (k + 1) := by
  induction k with
  | zero => rfl
  | succ k ih => simp [iterBal, ih]

theorem payoffLoop_none (r p b : ℚ) (h : ∀ k, 0 < iterBal r p b k) :
    ∀ fuel m, payoffLoop r p fuel b m = none := by
  intro fuel
  induction fuel generalizing b h with
  | zero =>
    intro m
    have hb : 0 < b := by simpa [iterBal] using h 0
    simp [payoffLoop, hb]
  | succ fuel ih =>
    intro m
    have hb : 0 < b := by simpa [iterBal] using h 0
    have hnext : ∀ k, 0 < iterBal r p (balStep r p b) k := by
      intro k
      rw [iterBal_step_comm]
      exact h (k + 1)
    simp [payoffLoop, hb, ih _ hnext]

theorem debtLoop_none (r p b : ℚ) (h : ∀ k, 0 < iterBal r p b k) :
    ∀ fuel bals paid m, debtLoop r p fuel b bals paid m = none := by
  intro fuel
  induction fuel generalizing b h with
  | zero =>
    intro bals paid m
    have hb : 0 < b := by simpa [iterBal] using h 0
    simp [debtLoop, hb]
  | succ fuel ih =>
    intro bals paid m
    have hb : 0 < b := by simpa [iterBal] using h 0
    have hnext : ∀ k, 0 < iterBal r p (balStep r p b) k := by
      intro k
      rw [iterBal_step_comm]
      exact h (k + 1)
    simp [debtLoop, hb, ih _ hnext]

theorem payoffLoop_eq (r p : ℚ) :
    ∀ (n : ℕ) (b : ℚ) (fuel m : ℕ), (∀ k < n, 0 < iterBal r p b k) →
      iterBal r p b n ≤ 0 → n ≤ fuel → payoffLoop r p fuel b m = some (m + n) := by
  intro n
  induction n with
  | zero =>
    intro b fuel m _ hle _
    have hb : ¬ 0 < b := not_lt.mpr hle
    cases fuel <;> simp [payoffLoop, hb]
  | succ n ih =>
    intro b fuel m hpos hle hfuel
    obtain ⟨fuel, rfl⟩ : ∃ f, fuel = f + 1 := ⟨fuel - 1, by omega⟩
    have hb : 0 < b := by simpa [iterBal] using hpos 0 (Nat.succ_pos n)
    have hpos2 : ∀ k < n, 0 < iterBal r p (balStep r p b) k := by
      intro k hk
      rw [iterBal_step_comm]
      exact hpos (k + 1) (by omega)
    have hle2 : iterBal r p (balStep r p b) n ≤ 0 := by
      rw [iterBal_step_comm]; exact hle
    have := ih (balStep r p b) fuel (m + 1) hpos2 hle2 (by omega)
    simp [payoffLoop, hb, this]
    omega

theorem balTrace_succ (r p b : ℚ) (n : ℕ) :
    balTrace r p b (n + 1) = balStep r p b :: balTrace r p (balStep r p b) n := by
  unfold balTrace
  rw [List.range_succ_eq_map, List.map_cons, List.map_map]
  refine congrArg₂ _ (by simp [iterBal]) ?_
  refine List.map_congr_left ?_
  intro k _
  simp [Function.comp, iterBal_step_comm]

theorem debtLoop_eq (r p : ℚ) :
    ∀ (n : ℕ) (b : ℚ) (fuel : ℕ) (bals paid : List ℚ) (m : ℕ),
      (∀ k < n, 0 < iterBal r p b k) → iterBal r p b n ≤ 0 → n ≤ fuel →
      debtLoop r p fuel b bals paid m =
        some (bals ++ balTrace r p b n, paid ++ List.replicate n p, iterBal r p b n, m + n) := by
  intro n
  induction n with
  | zero =>
    intro b fuel bals paid m _ hle _
    have hb : ¬ 0 < b := by simpa [iterBal] using not_lt.mpr hle
    cases fuel <;> simp [debtLoop, hb, balTrace, iterBal]
  | succ n ih =>
    intro b fuel bals paid m hpos hle hfuel
    obtain ⟨fuel, rfl⟩ : ∃ f, fuel = f + 1 := ⟨fuel - 1, by omega⟩
    have hb : 0 < b := by simpa [iterBal] using hpos 0 (Nat.succ_pos n)
    have hpos2 : ∀ k < n, 0 < iterBal r p (balStep r p b) k := by
      intro k hk
      rw [iterBal_step_comm]
      exact hpos (k + 1) (by omega)
    have hle2 : iterBal r p (balStep r p b) n ≤ 0 := by
      rw [iterBal_step_comm]; exact hle
    have := ih (balStep r p b) fuel (bals ++ [balStep r p b]) (paid ++ [p]) (m + 1)
      hpos2 hle2 (by omega)
    rw [iterBal_step_comm] at this
    simp only [debtLoop, if_pos hb, this]
    rw [balTrace_succ]
    simp [List.replicate_succ]
    omega

theorem setLast_append_single (xs : List ℚ) (y v : ℚ) :
    setLast (xs ++ [y]) v = some (xs ++ [v]) := by
  induction xs with
  | nil => simp [setLast]
  | cons x xs ih =>
    cases xs with
    | nil => simp [setLast]
    | cons z zs => simpa [setLast] using ih

theorem schedBalances_as_concat (r p P : ℚ) (n : ℕ) :
    P :: balTrace r p P n = (List.range n).map (iterBal r p P) ++ [iterBal r p P n] := by
  have h1 : P :: balTrace r p P n = (List.range (n + 1)).map (iterBal r p P) := by
    rw [List.range_succ_eq_map, List.map_cons, List.map_map]
    refine congrArg₂ _ (by simp [iterBal]) ?_
    unfold balTrace
    refine List.map_congr_left ?_
    intro k _
    simp [Function.comp]
  rw [h1, List.range_succ, List.map_append, List.map_singleton]

theorem debt_schedule_eq (r p P : ℚ) (n fuel : ℕ)
    (hn : PayoffMonths r p P n) (h1 : 1 ≤ n) (hfuel : n ≤ fuel) :
    debt_schedule P r p fuel =
      some ⟨schedBalances r p P n, schedPayments r p P n⟩ := by
  have hloop := debtLoop_eq r p n P fuel [P] [0] 0 hn.2 hn.1 hfuel
  unfold debt_schedule
  rw [hloop]
  have hmonth : ¬ (0 + n = 0) := by omega
  simp only [hmonth, if_neg, ite_false]
  have hbals : [P] ++ balTrace r p P n =
      (List.range n).map (iterBal r p P) ++ [iterBal r p P n] := by
    simpa using schedBalances_as_concat r p P n
  have hpaid : [(0 : ℚ)] ++ List.replicate n p =
      (0 :: List.replicate (n - 1) p) ++ [p] := by
    obtain ⟨k, rfl⟩ : ∃ k, n = k + 1 := ⟨n - 1, by omega⟩
    simp [List.replicate_succ']
  rw [hbals, hpaid, setLast_append_single, setLast_append_single]
  simp [schedBalances, schedPayments, add_comm]

/-! ### Termination and shape of the balance sequence for valid loans -/

/-- A loan is valid when the principal is positive, the rate nonnegative,
and the payment exceeds the first period's interest accrual. -/
def ValidLoan (debt_amount int_rate debt_payment : ℚ) : Prop :=
  0 < debt_amount ∧ 0 ≤ int_rate ∧ debt_amount * int_rate / 12 < debt_payment

theorem iterBal_le_linear (r p P : ℚ) (hr : 0 ≤ r) (hP : 0 < P)
    (hp : P * r / 12 < p) (k : ℕ) :
    iterBal r p P k ≤ 0 ∨ iterBal r p P k ≤ P - k * (p - P * r / 12) := by
  induction k with
  | zero => right; simp [iterBal]
  | succ k ih =>
    have hp0 : 0 < p := lt_of_le_of_lt (by positivity) hp
    have hfac : (0 : ℚ) ≤ 1 + r / 12 := by linarith [div_nonneg hr (by norm_num : (0:ℚ) ≤ 12)]
    rcases ih with h | h
    · left
      have hmul : iterBal r p P k * (1 + r / 12) ≤ 0 := mul_nonpos_of_nonpos_of_nonneg h hfac
      simp only [iterBal, balStep]
      linarith
    · by_cases hk : iterBal r p P k ≤ 0
      · left
        have hmul : iterBal r p P k * (1 + r / 12) ≤ 0 := mul_nonpos_of_nonpos_of_nonneg hk hfac
        simp only [iterBal, balStep]
        linarith
      · right
        have hkP : iterBal r p P k ≤ P := by
          have : (0 : ℚ) ≤ (k : ℚ) * (p - P * r / 12) := by
            have : (0 : ℚ) ≤ (k : ℚ) := Nat.cast_nonneg k
            nlinarith
          linarith
        have hmul : iterBal r p P k * (r / 12) ≤ P * (r / 12) :=
          mul_le_mul_of_nonneg_right hkP (div_nonneg hr (by norm_num))
        simp only [iterBal, balStep]
        push_cast
        have hPr : P * (r / 12) = P * r / 12 := by ring
        nlinarith

theorem exists_iterBal_nonpos (r p P : ℚ) (h : ValidLoan P r p) :
    ∃ n, iterBal r p P n ≤ 0 := by
  obtain ⟨hP, hr, hp⟩ := h
  have hd : 0 < p - P * r / 12 := by linarith
  obtain ⟨n, hn⟩ := exists_nat_gt (P / (p - P * r / 12))
  refine ⟨n, ?_⟩
  rcases iterBal_le_linear r p P hr hP hp n with h | h
  · exact h
  · have : P < (n : ℚ) * (p - P * r / 12) := (div_lt_iff₀ hd).mp hn
    linarith

theorem exists_payoffMonths (r p P : ℚ) (h : ValidLoan P r p) :
    ∃ n, PayoffMonths r p P n := by
  have hex := exists_iterBal_nonpos r p P h
  refine ⟨Nat.find hex, Nat.find_spec hex, ?_⟩
  intro k hk
  have := Nat.find_min hex hk
  exact lt_of_not_le this

theorem payoffMonths_one_le (r p P : ℚ) (n : ℕ) (hP : 0 < P)
    (hn : PayoffMonths r p P n) : 1 ≤ n := by
  by_contra h
  have hn0 : n = 0 := by omega
  have := hn.1
  rw [hn0] at this
  simp [iterBal] at this
  linarith

theorem payoffMonths_unique (r p P : ℚ) (n m : ℕ)
    (hn : PayoffMonths r p P n) (hm : PayoffMonths r p P m) : n = m := by
  by_contra h
  rcases Nat.lt_or_ge n m with hlt | hge
  · exact absurd hn.1 (not_le.mpr (hm.2 n hlt))
  · have hlt : m < n := by omega
    exact absurd hm.1 (not_le.mpr (hn.2 m hlt))

theorem iterBal_le_init (r p P : ℚ) (h : ValidLoan P r p) :
    ∀ k, iterBal r p P k ≤ P ∧ iterBal r p P (k + 1) < iterBal r p P k := by
  obtain ⟨hP, hr, hp⟩ := h
  have hr12 : (0 : ℚ) ≤ r / 12 := div_nonneg hr (by norm_num)
  intro k
  induction k with
  | zero =>
    constructor
    · simp [iterBal]
    · have : P * (r / 12) = P * r / 12 := by ring
      simp only [iterBal, balStep]
      nlinarith
  | succ k ih =>
    have hle : iterBal r p P (k + 1) ≤ P := le_of_lt (lt_of_lt_of_le ih.2 ih.1)
    refine ⟨hle, ?_⟩
    have hmul : iterBal r p P (k + 1) * (r / 12) ≤ P * (r / 12) :=
      mul_le_mul_of_nonneg_right hle hr12
    have hPr : P * (r / 12) = P * r / 12 := by ring
    show balStep r p (iterBal r p P (k + 1)) < iterBal r p P (k + 1)
    simp only [balStep]
    nlinarith

theorem iterBal_strict_decrease (r p P : ℚ) (h : ValidLoan P r p) :
    ∀ k, iterBal r p P (k + 1) < iterBal r p P k :=
  fun k => (iterBal_le_init r p P h k).2

theorem iterBal_anti_payment (r p q P : ℚ) (hr : 0 ≤ r) (hpq : p ≤ q) :
    ∀ k, iterBal r q P k ≤ iterBal r p P k := by
  intro k
  induction k with
  | zero => simp [iterBal]
  | succ k ih =>
    have hfac : (0 : ℚ) ≤ 1 + r / 12 := by
      linarith [div_nonneg hr (by norm_num : (0:ℚ) ≤ 12)]
    have := mul_le_mul_of_nonneg_right ih hfac
    simp only [iterBal, balStep]
    linarith

theorem payoffMonths_mono (r p q P : ℚ) (n m : ℕ) (hr : 0 ≤ r) (hpq : p ≤ q)
    (hn : PayoffMonths r p P n) (hm : PayoffMonths r q P m) : m ≤ n := by
  by_contra h
  have hlt : n < m := by omega
  have h1 : 0 < iterBal r q P n := hm.2 n hlt
  have h2 : iterBal r q P n ≤ iterBal r p P n := iterBal_anti_payment r p q P hr hpq n
  have h3 := hn.1
  linarith

/-! ### Behaviour of the compounding scheduler -/

theorem invLoop_eq_invVals :
    ∀ (rs cs : List ℚ) (v : ℚ), rs.length ≤ cs.length →
      invLoop cs rs v = some (invVals cs rs v) := by
  intro rs
  induction rs with
  | nil => intro cs v _; cases cs <;> simp [invLoop, invVals]
  | cons r rs ih =>
    intro cs v hlen
    cases cs with
    | nil => simp at hlen
    | cons c cs =>
      simp only [List.length_cons, Nat.succ_le_succ_iff] at hlen
      simp [invLoop, invVals, ih cs _ hlen]

theorem invVals_length :
    ∀ (rs cs : List ℚ) (v : ℚ), rs.length ≤ cs.length →
      (invVals cs rs v).length = rs.length := by
  intro rs
  induction rs with
  | nil => intro cs v _; cases cs <;> simp [invVals]
  | cons r rs ih =>
    intro cs v hlen
    cases cs with
    | nil => simp at hlen
    | cons c cs =>
      simp only [List.length_cons, Nat.succ_le_succ_iff] at hlen
      simp [invVals, ih cs _ hlen]

theorem invVals_getD :
    ∀ (rs cs : List ℚ) (v : ℚ) (t : ℕ), t < rs.length → rs.length ≤ cs.length →
      (invVals cs rs v).getD t 0 =
        (cs.getD t 0 + (v :: invVals cs rs v).getD t 0) * (1 + rs.getD t 0) := by
  intro rs
  induction rs with
  | nil => intro cs v t ht _; simp at ht
  | cons r rs ih =>
    intro cs v t ht hlen
    cases cs with
    | nil => simp at hlen
    | cons c cs =>
      simp only [List.length_cons, Nat.succ_le_succ_iff] at hlen
      cases t with
      | zero => simp [invVals]
      | succ t =>
        simp only [List.length_cons, Nat.succ_lt_succ_iff] at ht
        simpa [invVals] using ih cs ((c + v) * (1 + r)) t ht hlen

theorem inv_schedule_eq (cs : List ℚ) (r0 : ℚ) (rest : List ℚ)
    (hlen : rest.length ≤ cs.length) :
    inv_schedule cs (r0 :: rest) = some (0 :: invVals cs rest 0) := by
  simp [inv_schedule, invLoop_eq_invVals rest cs 0 hlen]

/-! ### Small list helpers -/

theorem getD_replicate_of_lt (n i : ℕ) (x : ℚ) (h : i < n) :
    (List.replicate n x).getD i 0 = x := by
  rw [List.getD_eq_getElem _ _ (by simpa using h)]
  simp

theorem firstZeroIdx_append (xs ys : List ℚ) (h : ∀ x ∈ xs, x ≠ 0) :
    firstZeroIdx (xs ++ 0 :: ys) = some xs.length := by
  induction xs with
  | nil => simp [firstZeroIdx]
  | cons x xs ih =>
    have hx : x ≠ 0 := h x (by simp)
    have := ih (fun y hy => h y (by simp [hy]))
    simp [firstZeroIdx, hx, this]

theorem setLast_replicate_succ (n : ℕ) (x v : ℚ) :
    setLast (List.replicate (n + 1) x) v = some (List.replicate n x ++ [v]) := by
  rw [List.replicate_succ']
  exact setLast_append_single _ _ _

theorem schedPayments_getLast (r p P : ℚ) (n : ℕ) :
    (schedPayments r p P n).getLast? = some (p + iterBal r p P n) := by
  unfold schedPayments
  exact List.getLast?_concat _

theorem schedBalances_length (r p P : ℚ) (n : ℕ) :
    (schedBalances r p P n).length = n + 1 := by
  simp [schedBalances]

theorem schedPayments_length (r p P : ℚ) (n : ℕ) (h : 1 ≤ n) :
    (schedPayments r p P n).length = n + 1 := by
  simp [schedPayments]
  omega

/-! ### Evaluation of the strategy comparators for valid inputs -/

theorem payoff_nmonths_eq (r dp P : ℚ) (n fuel : ℕ)
    (hn : PayoffMonths r dp P n) (hfuel : n ≤ fuel) :
    payoff_nmonths P dp r fuel = some n := by
  unfold payoff_nmonths
  simpa using payoffLoop_eq r dp n P fuel 0 hn.2 hn.1 hfuel

theorem conc_contributions_eq (r dp e P : ℚ) (n rsLen fuel : ℕ)
    (hn : PayoffMonths r dp P n) (h1 : 1 ≤ n) (hlen : n < rsLen) (hfuel : n ≤ fuel) :
    conc_contributions rsLen P r dp e fuel =
      some ((List.replicate n (dp + e) ++ [dp - (dp + iterBal r dp P n) + e + dp]) ++
        List.replicate (rsLen - (n + 1)) (dp + e + dp)) := by
  unfold conc_contributions
  rw [debt_schedule_eq r dp P n fuel hn h1 hfuel]
  simp only [schedPayments_getLast, schedBalances_length, schedPayments_length r dp P n h1]
  have hmin : min (n + 1) rsLen = n + 1 := Nat.min_eq_left (by omega)
  rw [hmin, setLast_replicate_succ]

theorem conc_payout_eq (r dp e P : ℚ) (n fuel : ℕ) (r0 : ℚ) (rest : List ℚ)
    (hn : PayoffMonths r dp P n) (h1 : 1 ≤ n) (hlen : n < rest.length + 1)
    (hfuel : n ≤ fuel) :
    ∃ vals,
      inv_schedule ((List.replicate n (dp + e) ++ [dp - (dp + iterBal r dp P n) + e + dp]) ++
        List.replicate (rest.length + 1 - (n + 1)) (dp + e + dp)) (r0 :: rest) = some vals ∧
      vals.length = rest.length + 1 ∧
      conc_payout (r0 :: rest) P r dp e fuel =
        .ok ⟨schedBalances r dp P n ++ List.replicate (rest.length + 1 - (n + 1)) 0,
             schedPayments r dp P n ++ List.replicate (rest.length + 1 - (n + 1)) 0,
             vals⟩ := by
  have hpm := payoff_nmonths_eq r dp P n fuel hn hfuel
  have hds := debt_schedule_eq r dp P n fuel hn h1 hfuel
  have hcc := conc_contributions_eq r dp e P n (rest.length + 1) fuel hn h1 hlen hfuel
  have hclen : ((List.replicate n (dp + e) ++ [dp - (dp + iterBal r dp P n) + e + dp]) ++
      List.replicate (rest.length + 1 - (n + 1)) (dp + e + dp)).length = rest.length + 1 := by
    simp
    omega
  have hrestle : rest.length ≤
      ((List.replicate n (dp + e) ++ [dp - (dp + iterBal r dp P n) + e + dp]) ++
        List.replicate (rest.length + 1 - (n + 1)) (dp + e + dp)).length := by
    rw [hclen]
    omega
  have hinv := inv_schedule_eq _ r0 rest hrestle
  have hvlen : ((0 : ℚ) :: invVals
      ((List.replicate n (dp + e) ++ [dp - (dp + iterBal r dp P n) + e + dp]) ++
        List.replicate (rest.length + 1 - (n + 1)) (dp + e + dp)) rest 0).length =
      rest.length + 1 := by
    rw [List.length_cons, invVals_length rest _ 0 hrestle]
  refine ⟨_, hinv, hvlen, ?_⟩
  unfold conc_payout
  simp only [List.length_cons] at hcc hinv ⊢
  rw [hpm]
  simp only []
  rw [if_neg (by omega : ¬ (rest.length + 1 ≤ n))]
  rw [hds]
  simp only []
  rw [hcc]
  simp only []
  rw [hinv]
  simp only []
  simp only [padTo, schedBalances_length, schedPayments_length r dp P n h1, hvlen]
  have hmax : max (n + 1) (rest.length + 1) = rest.length + 1 := Nat.max_eq_right (by omega)
  rw [hmax]
  simp

theorem loans_first_contributions_eq (r dp e P : ℚ) (n' rsLen fuel : ℕ)
    (hn' : PayoffMonths r (2 * dp + e) P n') (h1 : 1 ≤ n') (hlen : n' < rsLen)
    (hfuel : n' ≤ fuel) :
    loans_first_contributions rsLen P r dp e fuel =
      some ((dp - (2 * dp + e + iterBal r (2 * dp + e) P n') + e) ::
        List.replicate (rsLen - n' - 1) (2 * dp + e)) := by
  unfold loans_first_contributions
  rw [debt_schedule_eq r (2 * dp + e) P n' fuel hn' h1 hfuel]
  simp only []
  rw [schedPayments_getLast]
  simp only [schedBalances_length]
  have h2 : n' + 1 - 1 = n' := by omega
  rw [h2]
  obtain ⟨m, hm⟩ : ∃ m, rsLen - n' = m + 1 := ⟨rsLen - n' - 1, by omega⟩
  have h3 : rsLen - n' - 1 = m := by omega
  rw [h3, hm, List.replicate_succ]
  simp [setFirst]

theorem loans_first_payout_eq (r dp e P : ℚ) (n n' fuel : ℕ) (rs : List ℚ)
    (hn : PayoffMonths r dp P n) (hn' : PayoffMonths r (2 * dp + e) P n')
    (h1 : 1 ≤ n') (hlen : n < rs.length) (hn'n : n' ≤ n) (hfuel : n ≤ fuel) :
    ∃ vals,
      inv_schedule ((dp - (2 * dp + e + iterBal r (2 * dp + e) P n') + e) ::
          List.replicate (rs.length - n' - 1) (2 * dp + e)) (rs.drop n') = some vals ∧
      vals.length = rs.length - n' ∧
      loans_first_payout rs P r dp e fuel =
        .ok ⟨schedBalances r (2 * dp + e) P n' ++ List.replicate (rs.length - (n' + 1)) 0,
             schedPayments r (2 * dp + e) P n' ++ List.replicate (rs.length - (n' + 1)) 0,
             List.replicate n' 0 ++ vals⟩ := by
  have hlen' : n' < rs.length := by omega
  have hpm := payoff_nmonths_eq r dp P n fuel hn hfuel
  have hds := debt_schedule_eq r (2 * dp + e) P n' fuel hn' h1 (by omega)
  have hlc := loans_first_contributions_eq r dp e P n' rs.length fuel hn' h1 hlen' (by omega)
  obtain ⟨d0, drest, hd⟩ : ∃ a l, rs.drop n' = a :: l := by
    have hlend : (rs.drop n').length = rs.length - n' := List.length_drop n' rs
    cases hdrop : rs.drop n' with
    | nil => rw [hdrop] at hlend; simp at hlend; omega
    | cons a l => exact ⟨a, l, rfl⟩
  have hdlen : drest.length = rs.length - n' - 1 := by
    have hlend : (rs.drop n').length = rs.length - n' := List.length_drop n' rs
    rw [hd] at hlend
    simp at hlend
    omega
  have hrestle : drest.length ≤
      ((dp - (2 * dp + e + iterBal r (2 * dp + e) P n') + e) ::
        List.replicate (rs.length - n' - 1) (2 * dp + e)).length := by
    simp [hdlen]
  have hinv := inv_schedule_eq
    ((dp - (2 * dp + e + iterBal r (2 * dp + e) P n') + e) ::
      List.replicate (rs.length - n' - 1) (2 * dp + e)) d0 drest (by simpa using hrestle)
  rw [← hd] at hinv
  have hvlen : ((0 : ℚ) :: invVals
      ((dp - (2 * dp + e + iterBal r (2 * dp + e) P n') + e) ::
        List.replicate (rs.length - n' - 1) (2 * dp + e)) drest 0).length =
      rs.length - n' := by
    rw [List.length_cons, invVals_length drest _ 0 (by simpa using hrestle)]
    omega
  refine ⟨_, hinv, hvlen, ?_⟩
  unfold loans_first_payout
  rw [hpm]
  simp only []
  rw [if_neg (not_le.mpr hlen)]
  rw [hds]
  simp only []
  rw [hlc]
  simp only []
  rw [schedBalances_length]
  have h2 : n' + 1 - 1 = n' := by omega
  rw [h2, hinv]
  simp only []
  have hcollen : (List.replicate n' (0 : ℚ) ++
      (0 :: invVals ((dp - (2 * dp + e + iterBal r (2 * dp + e) P n') + e) ::
        List.replicate (rs.length - n' - 1) (2 * dp + e)) drest 0)).length = rs.length := by
    rw [List.length_append, List.length_replicate, hvlen]
    omega
  simp only [padTo, schedBalances_length, schedPayments_length r (2 * dp + e) P n' h1,
    hcollen]
  have hmax : max (n' + 1) rs.length = rs.length := Nat.max_eq_right (by omega)
  rw [hmax]
  simp

/-! ### Helpers for the GBM path and the merged loan column -/

theorem cumsumFrom_length (xs : List ℚ) : ∀ acc, (cumsumFrom acc xs).length = xs.length := by
  induction xs with
  | nil => intro acc; simp [cumsumFrom]
  | cons x xs ih => intro acc; simp [cumsumFrom, ih]

theorem zipWith_const (f : ℚ → ℚ → ℚ) (c : ℚ) :
    ∀ (as bs : List ℚ), (∀ a b, f a b = c) →
      List.zipWith f as bs = List.replicate (min as.length bs.length) c := by
  intro as
  induction as with
  | nil => intro bs _; simp
  | cons a as ih =>
    intro bs h
    cases bs with
    | nil => simp
    | cons b bs =>
      simp only [List.zipWith_cons_cons, List.length_cons, Nat.succ_min_succ,
        List.replicate_succ, h a b, ih bs h]

theorem firstZero_schedBalances (r p P : ℚ) (n k : ℕ) (hn : PayoffMonths r p P n) :
    firstZeroIdx (schedBalances r p P n ++ List.replicate k 0) = some n := by
  unfold schedBalances
  rw [List.append_assoc]
  have hshape : ([0] ++ List.replicate k (0 : ℚ)) = 0 :: List.replicate k 0 := rfl
  rw [hshape, firstZeroIdx_append]
  · simp
  · intro x hx
    simp only [List.mem_map, List.mem_range] at hx
    obtain ⟨j, hj, rfl⟩ := hx
    exact ne_of_gt (hn.2 j hj)

/-!
## Claim theorems
-/

/-- **C1** (code bug in the source): for principal 1000, annual rate 0.24
and payment 10, neither `payoff_nmonths` nor `debt_schedule` detects the
invalid terms: there is no `InvalidLoanTerms` check anywhere, and the
`while debt > 0.` loop never exits because the balance stays at or above
1000 forever — the computation returns `none` for every fuel, i.e. the
source loops forever instead of raising. -/
theorem C1_invalid_terms_loop_forever (fuel : ℕ) :
    payoff_nmonths 1000 10 (24 / 100) fuel = none ∧
    debt_schedule 1000 (24 / 100) 10 fuel = none := by
  have key : ∀ k, (1000 : ℚ) ≤ iterBal (24 / 100) 10 1000 k := by
    intro k
    induction k with
    | zero => simp [iterBal]
    | succ k ih =>
      simp only [iterBal, balStep]
      linarith
  have hpos : ∀ k, 0 < iterBal (24 / 100) 10 1000 k :=
    fun k => lt_of_lt_of_le (by norm_num) (key k)
  constructor
  · exact payoffLoop_none _ _ _ hpos fuel 0
  · unfold debt_schedule
    rw [debtLoop_none _ _ _ hpos fuel _ _ 0]

/-- **C2**: for every valid loan, `debt_schedule` terminates with a
schedule of exactly `payoff_nmonths + 1` rows whose first balance is the
principal with a zero payment and whose final balance is exactly 0. -/
theorem C2_schedule_shape (P r p : ℚ) (hP : 0 < P) (hr : 0 ≤ r)
    (hp : P * r / 12 < p) :
    ∃ fuel n sched, payoff_nmonths P p r fuel = some n ∧
      debt_schedule P r p fuel = some sched ∧
      sched.loan_schedule.length = n + 1 ∧
      sched.payment.length = n + 1 ∧
      sched.loan_schedule.getLast? = some 0 ∧
      sched.loan_schedule.head? = some P ∧
      sched.payment.head? = some 0 := by
  obtain ⟨n, hn⟩ := exists_payoffMonths r p P ⟨hP, hr, hp⟩
  have h1 := payoffMonths_one_le r p P n hP hn
  refine ⟨n, n, _, payoff_nmonths_eq r p P n n hn le_rfl,
    debt_schedule_eq r p P n n hn h1 le_rfl, schedBalances_length r p P n,
    schedPayments_length r p P n h1, ?_, ?_, ?_⟩
  · unfold schedBalances
    exact List.getLast?_concat _
  · unfold schedBalances
    obtain ⟨m, rfl⟩ : ∃ m, n = m + 1 := ⟨n - 1, by omega⟩
    rw [List.range_succ_eq_map]
    simp [iterBal]
  · unfold schedPayments
    simp

/-- Witness for C2 at principal 10, rate 0, payment 3. -/
theorem C2_schedule_shape_witness :
    (0 < (10 : ℚ)) ∧ (0 ≤ (0 : ℚ)) ∧ ((10 : ℚ) * 0 / 12 < 3) ∧
    (∃ fuel n sched, payoff_nmonths 10 3 0 fuel = some n ∧
      debt_schedule 10 0 3 fuel = some sched ∧
      sched.loan_schedule.length = n + 1 ∧
      sched.payment.length = n + 1 ∧
      sched.loan_schedule.getLast? = some 0 ∧
      sched.loan_schedule.head? = some 10 ∧
      sched.payment.head? = some 0) :=
  ⟨by norm_num, by norm_num, by norm_num,
    C2_schedule_shape 10 0 3 (by norm_num) (by norm_num) (by norm_num)⟩

/-- **C4**: for every valid loan the iterated balance update reaches a
non-positive balance in finitely many steps, so with enough fuel both the
`payoff_nmonths` loop and the `debt_schedule` loop terminate. -/
theorem C4_loops_terminate (P r p : ℚ) (hP : 0 < P) (hr : 0 ≤ r)
    (hp : P * r / 12 < p) :
    ∃ fuel n sched, payoff_nmonths P p r fuel = some n ∧
      debt_schedule P r p fuel = some sched := by
  obtain ⟨n, hn⟩ := exists_payoffMonths r p P ⟨hP, hr, hp⟩
  have h1 := payoffMonths_one_le r p P n hP hn
  exact ⟨n, n, _, payoff_nmonths_eq r p P n n hn le_rfl,
    debt_schedule_eq r p P n n hn h1 le_rfl⟩

/-- Witness for C4 at principal 10, rate 0, payment 3. -/
theorem C4_loops_terminate_witness :
    (0 < (10 : ℚ)) ∧ (0 ≤ (0 : ℚ)) ∧ ((10 : ℚ) * 0 / 12 < 3) ∧
    (∃ fuel n sched, payoff_nmonths 10 3 0 fuel = some n ∧
      debt_schedule 10 0 3 fuel = some sched) :=
  ⟨by norm_num, by norm_num, by norm_num,
    C4_loops_terminate 10 0 3 (by norm_num) (by norm_num) (by norm_num)⟩

/-- **C3**: for contribution and return series of equal (positive) length,
`inv_schedule` returns a value series of the same length, with first value
0 and, for every later position `t`,
`value[t] = (contributions[t-1] + value[t-1]) * (1 + returns[t])`. -/
theorem C3_inv_schedule_recurrence (payments returns : List ℚ)
    (hlen : payments.length = returns.length) (hne : returns ≠ []) :
    ∃ vals, inv_schedule payments returns = some vals ∧
      vals.length = returns.length ∧
      vals.head? = some 0 ∧
      ∀ t, 1 ≤ t → t < vals.length →
        vals.getD t 0 = (payments.getD (t - 1) 0 + vals.getD (t - 1) 0) *
          (1 + returns.getD t 0) := by
  obtain ⟨r0, rest, rfl⟩ : ∃ a l, returns = a :: l := by
    cases returns with
    | nil => exact absurd rfl hne
    | cons a l => exact ⟨a, l, rfl⟩
  have hlen2 : rest.length ≤ payments.length := by
    rw [hlen]
    simp
  refine ⟨_, inv_schedule_eq payments r0 rest hlen2, ?_, by simp, ?_⟩
  · simp [invVals_length rest payments 0 hlen2]
  · intro t h1t htlen
    obtain ⟨s, rfl⟩ : ∃ s, t = s + 1 := ⟨t - 1, by omega⟩
    have hs : s < rest.length := by
      rw [List.length_cons, invVals_length rest payments 0 hlen2] at htlen
      omega
    have hrec := invVals_getD rest payments 0 s hs hlen2
    simpa using hrec

/-- Witness for C3 on contributions `[1, 2]` and returns `[9, 1]`. -/
theorem C3_inv_schedule_recurrence_witness :
    ([(1 : ℚ), 2].length = [(9 : ℚ), 1].length) ∧ ([(9 : ℚ), 1] ≠ []) ∧
    (∃ vals, inv_schedule [(1 : ℚ), 2] [(9 : ℚ), 1] = some vals ∧
      vals.length = [(9 : ℚ), 1].length ∧
      vals.head? = some 0 ∧
      ∀ t, 1 ≤ t → t < vals.length →
        vals.getD t 0 = ([(1 : ℚ), 2].getD (t - 1) 0 + vals.getD (t - 1) 0) *
          (1 + [(9 : ℚ), 1].getD t 0)) :=
  ⟨by decide, by decide,
    C3_inv_schedule_recurrence [(1 : ℚ), 2] [(9 : ℚ), 1] (by decide) (by decide)⟩

/-- **C10**: for every valid loan the `loan_schedule` column is strictly
decreasing, all entries are nonnegative, the first entry is the principal,
the last entry is 0 and no other entry is 0. -/
theorem C10_loan_schedule_invariants (P r p : ℚ) (hP : 0 < P) (hr : 0 ≤ r)
    (hp : P * r / 12 < p) :
    ∃ fuel sched, debt_schedule P r p fuel = some sched ∧
      sched.loan_schedule.Pairwise (· > ·) ∧
      (∀ x ∈ sched.loan_schedule, 0 ≤ x) ∧
      sched.loan_schedule.head? = some P ∧
      sched.loan_schedule.getLast? = some 0 ∧
      sched.loan_schedule.count 0 = 1 := by
  obtain ⟨n, hn⟩ := exists_payoffMonths r p P ⟨hP, hr, hp⟩
  have h1 := payoffMonths_one_le r p P n hP hn
  have hanti : StrictAnti (iterBal r p P) :=
    strictAnti_nat_of_succ_lt (iterBal_strict_decrease r p P ⟨hP, hr, hp⟩)
  refine ⟨n, _, debt_schedule_eq r p P n n hn h1 le_rfl, ?_, ?_, ?_, ?_, ?_⟩
  · unfold schedBalances
    rw [List.pairwise_append]
    refine ⟨?_, by simp, ?_⟩
    · rw [List.pairwise_map]
      refine List.Pairwise.imp ?_ (List.pairwise_lt_range n)
      intro a b hab
      exact hanti hab
    · intro a ha b hb
      simp only [List.mem_map, List.mem_range] at ha
      obtain ⟨j, hj, rfl⟩ := ha
      simp only [List.mem_singleton] at hb
      rw [hb]
      exact hn.2 j hj
  · unfold schedBalances
    intro x hx
    rw [List.mem_append] at hx
    rcases hx with hx | hx
    · simp only [List.mem_map, List.mem_range] at hx
      obtain ⟨j, hj, rfl⟩ := hx
      exact le_of_lt (hn.2 j hj)
    · simp only [List.mem_singleton] at hx
      rw [hx]
  · unfold schedBalances
    obtain ⟨m, rfl⟩ : ∃ m, n = m + 1 := ⟨n - 1, by omega⟩
    rw [List.range_succ_eq_map]
    simp [iterBal]
  · unfold schedBalances
    exact List.getLast?_concat _
  · unfold schedBalances
    rw [List.count_append]
    have hzero : ((List.range n).map (iterBal r p P)).count 0 = 0 := by
      rw [List.count_eq_zero]
      intro hmem
      simp only [List.mem_map, List.mem_range] at hmem
      obtain ⟨j, hj, hj0⟩ := hmem
      exact absurd hj0 (ne_of_gt (hn.2 j hj))
    rw [hzero]
    simp

/-- Witness for C10 at principal 10, rate 0, payment 3. -/
theorem C10_loan_schedule_invariants_witness :
    (0 < (10 : ℚ)) ∧ (0 ≤ (0 : ℚ)) ∧ ((10 : ℚ) * 0 / 12 < 3) ∧
    (∃ fuel sched, debt_schedule 10 0 3 fuel = some sched ∧
      sched.loan_schedule.Pairwise (· > ·) ∧
      (∀ x ∈ sched.loan_schedule, 0 ≤ x) ∧
      sched.loan_schedule.head? = some 10 ∧
      sched.loan_schedule.getLast? = some 0 ∧
      sched.loan_schedule.count 0 = 1) :=
  ⟨by norm_num, by norm_num, by norm_num,
    C10_loan_schedule_invariants 10 0 3 (by norm_num) (by norm_num) (by norm_num)⟩

/-- **C5**: with identical return series and loan terms, and both
comparators succeeding, the `loan_schedule` column of the debt-first
merged table reaches 0 at the same or an earlier period than that of the
concomitant merged table. -/
theorem C5_debt_first_not_later (rs : List ℚ) (P r dp e : ℚ) (n n' fuel : ℕ)
    (hP : 0 < P) (hr : 0 ≤ r) (hdp : 0 < dp) (he : 0 ≤ e)
    (hn : PayoffMonths r dp P n) (hn' : PayoffMonths r (2 * dp + e) P n')
    (hlen : n < rs.length) (hfuel : n ≤ fuel) :
    ∃ T1 T2 i1 i2,
      conc_payout rs P r dp e fuel = .ok T1 ∧
      loans_first_payout rs P r dp e fuel = .ok T2 ∧
      firstZeroIdx T1.loan_schedule = some i1 ∧
      firstZeroIdx T2.loan_schedule = some i2 ∧
      i2 ≤ i1 := by
  have h1 := payoffMonths_one_le r dp P n hP hn
  have h1' := payoffMonths_one_le r (2 * dp + e) P n' hP hn'
  have hmono : n' ≤ n :=
    payoffMonths_mono r dp (2 * dp + e) P n n' hr (by linarith) hn hn'
  obtain ⟨r0, rest, rfl⟩ : ∃ a l, rs = a :: l := by
    cases rs with
    | nil => simp at hlen
    | cons a l => exact ⟨a, l, rfl⟩
  obtain ⟨vals1, hinv1, hvlen1, heq1⟩ :=
    conc_payout_eq r dp e P n fuel r0 rest hn h1 (by simpa using hlen) hfuel
  obtain ⟨vals2, hinv2, hvlen2, heq2⟩ :=
    loans_first_payout_eq r dp e P n n' fuel (r0 :: rest) hn hn' h1' hlen hmono hfuel
  refine ⟨_, _, n, n', heq1, heq2, ?_, ?_, hmono⟩
  · exact firstZero_schedBalances r dp P n _ hn
  · exact firstZero_schedBalances r (2 * dp + e) P n' _ hn'

/-- Witness for C5: principal 10, rate 0, payment 3, no excess, 5 flat
return periods; the nominal horizon is 4 months, the accelerated one 2. -/
theorem C5_debt_first_not_later_witness :
    (0 < (10 : ℚ)) ∧ (0 ≤ (0 : ℚ)) ∧ (0 < (3 : ℚ)) ∧
    PayoffMonths 0 3 10 4 ∧ PayoffMonths 0 (2 * 3 + 0) 10 2 ∧
    (4 < (List.replicate 5 (0 : ℚ)).length) ∧
    (∃ T1 T2 i1 i2,
      conc_payout (List.replicate 5 (0 : ℚ)) 10 0 3 0 10 = .ok T1 ∧
      loans_first_payout (List.replicate 5 (0 : ℚ)) 10 0 3 0 10 = .ok T2 ∧
      firstZeroIdx T1.loan_schedule = some i1 ∧
      firstZeroIdx T2.loan_schedule = some i2 ∧
      i2 ≤ i1) :=
  ⟨by norm_num, by norm_num, by norm_num,
    ⟨by norm_num [iterBal, balStep], by
      intro k hk
      interval_cases k <;> norm_num [iterBal, balStep]⟩,
    ⟨by norm_num [iterBal, balStep], by
      intro k hk
      interval_cases k <;> norm_num [iterBal, balStep]⟩,
    by simp,
    C5_debt_first_not_later (List.replicate 5 (0 : ℚ)) 10 0 3 0 4 2 10
      (by norm_num) (by norm_num) (by norm_num) (by norm_num)
      ⟨by norm_num [iterBal, balStep], by
        intro k hk
        interval_cases k <;> norm_num [iterBal, balStep]⟩
      ⟨by norm_num [iterBal, balStep], by
        intro k hk
        interval_cases k <;> norm_num [iterBal, balStep]⟩
      (by simp) (by norm_num)⟩

theorem sandwich_getD_lt (x v y : ℚ) (n m t : ℕ) (ht : t < n) :
    ((List.replicate n x ++ [v]) ++ List.replicate m y).getD t 0 = x := by
  rw [List.getD_append _ _ _ _
    (by simp only [List.length_append, List.length_replicate, List.length_cons,
      List.length_nil]; omega)]
  rw [List.getD_append _ _ _ _ (by simpa using ht)]
  exact getD_replicate_of_lt n t x ht

theorem sandwich_getD_mid (x v y : ℚ) (n m : ℕ) :
    ((List.replicate n x ++ [v]) ++ List.replicate m y).getD n 0 = v := by
  rw [List.getD_append _ _ _ _
    (by simp only [List.length_append, List.length_replicate, List.length_cons,
      List.length_nil]; omega)]
  rw [List.getD_append_right _ _ _ _ (by simp)]
  simp

theorem sandwich_getD_gt (x v y : ℚ) (n m t : ℕ) (h1 : n < t) (h2 : t - (n + 1) < m) :
    ((List.replicate n x ++ [v]) ++ List.replicate m y).getD t 0 = y := by
  rw [List.getD_append_right _ _ _ _
    (by simp only [List.length_append, List.length_replicate, List.length_cons,
      List.length_nil]; omega)]
  have hidx : t - (List.replicate n x ++ [v]).length = t - (n + 1) := by
    simp only [List.length_append, List.length_replicate, List.length_cons,
      List.length_nil]
  rw [hidx]
  exact getD_replicate_of_lt m _ y h2

/-- **C6**: the contribution series of the concomitant variant equals
`debt_payment + excess_inv` strictly before the final debt period, equals
`debt_payment - last_debt_payment + excess_inv + debt_payment` at the
final debt period, and equals `2 * debt_payment + excess_inv` at every
later return period. -/
theorem C6_conc_contributions (rsLen fuel : ℕ) (P r dp e : ℚ) (n : ℕ)
    (hP : 0 < P) (hn : PayoffMonths r dp P n) (hlen : n < rsLen) (hfuel : n ≤ fuel) :
    ∃ c sched lastPay,
      debt_schedule P r dp fuel = some sched ∧
      sched.payment.getLast? = some lastPay ∧
      conc_contributions rsLen P r dp e fuel = some c ∧
      c.length = rsLen ∧
      (∀ t < n, c.getD t 0 = dp + e) ∧
      c.getD n 0 = dp - lastPay + e + dp ∧
      (∀ t, n < t → t < rsLen → c.getD t 0 = 2 * dp + e) := by
  have h1 := payoffMonths_one_le r dp P n hP hn
  refine ⟨_, _, _, debt_schedule_eq r dp P n fuel hn h1 hfuel,
    schedPayments_getLast r dp P n,
    conc_contributions_eq r dp e P n rsLen fuel hn h1 hlen hfuel, ?_, ?_, ?_, ?_⟩
  · simp only [List.length_append, List.length_replicate, List.length_cons,
      List.length_nil]
    omega
  · intro t ht
    exact sandwich_getD_lt _ _ _ n _ t ht
  · exact sandwich_getD_mid _ _ _ n _
  · intro t h1t h2t
    rw [sandwich_getD_gt _ _ _ n _ t h1t (by omega)]
    ring

/-- Witness for C6 at principal 10, rate 0, payment 3, excess 0, over 5
return periods (nominal horizon 4 months). -/
theorem C6_conc_contributions_witness :
    (0 < (10 : ℚ)) ∧ PayoffMonths 0 3 10 4 ∧ (4 < 5) ∧
    (∃ c sched lastPay,
      debt_schedule 10 0 3 10 = some sched ∧
      sched.payment.getLast? = some lastPay ∧
      conc_contributions 5 10 0 3 0 10 = some c ∧
      c.length = 5 ∧
      (∀ t < 4, c.getD t 0 = 3 + 0) ∧
      c.getD 4 0 = 3 - lastPay + 0 + 3 ∧
      (∀ t, 4 < t → t < 5 → c.getD t 0 = 2 * 3 + 0)) :=
  ⟨by norm_num,
    ⟨by norm_num [iterBal, balStep], by
      intro k hk
      interval_cases k <;> norm_num [iterBal, balStep]⟩,
    by norm_num,
    C6_conc_contributions 5 10 10 0 3 0 4 (by norm_num)
      ⟨by norm_num [iterBal, balStep], by
        intro k hk
        interval_cases k <;> norm_num [iterBal, balStep]⟩
      (by norm_num) (by norm_num)⟩

/-- **C7**: the debt-first variant runs the amortization scheduler with
the accelerated payment `2 * debt_payment + excess_inv`; viewed on the
full period timeline its contribution series is 0 throughout the
accelerated payoff, equals
`debt_payment - last_debt_payment + excess_inv` at the payoff period and
`2 * debt_payment + excess_inv` afterwards; and the compounding scheduler
runs only over the sub-range of the return series starting at the payoff
period, its values occupying exactly those rows of the merged table. -/
theorem C7_loans_first_structure (rs : List ℚ) (P r dp e : ℚ) (n n' fuel : ℕ)
    (hP : 0 < P) (hr : 0 ≤ r) (hdp : 0 < dp) (he : 0 ≤ e)
    (hn : PayoffMonths r dp P n) (hn' : PayoffMonths r (2 * dp + e) P n')
    (hlen : n < rs.length) (hfuel : n ≤ fuel) :
    ∃ sched c vals T lastPay,
      debt_schedule P r (2 * dp + e) fuel = some sched ∧
      sched.payment.getLast? = some lastPay ∧
      loans_first_contributions rs.length P r dp e fuel = some c ∧
      (∀ t < n', (List.replicate n' (0 : ℚ) ++ c).getD t 0 = 0) ∧
      (List.replicate n' (0 : ℚ) ++ c).getD n' 0 = dp - lastPay + e ∧
      (∀ t, n' < t → t < rs.length →
        (List.replicate n' (0 : ℚ) ++ c).getD t 0 = 2 * dp + e) ∧
      inv_schedule c (rs.drop n') = some vals ∧
      loans_first_payout rs P r dp e fuel = .ok T ∧
      T.inv_value = List.replicate n' 0 ++ vals := by
  have h1' := payoffMonths_one_le r (2 * dp + e) P n' hP hn'
  have hmono : n' ≤ n :=
    payoffMonths_mono r dp (2 * dp + e) P n n' hr (by linarith) hn hn'
  have hlen' : n' < rs.length := by omega
  obtain ⟨vals, hinv, hvlen, heq⟩ :=
    loans_first_payout_eq r dp e P n n' fuel rs hn hn' h1' hlen hmono hfuel
  have hshape : List.replicate n' (0 : ℚ) ++
      ((dp - (2 * dp + e + iterBal r (2 * dp + e) P n') + e) ::
        List.replicate (rs.length - n' - 1) (2 * dp + e)) =
      (List.replicate n' (0 : ℚ) ++ [dp - (2 * dp + e + iterBal r (2 * dp + e) P n') + e]) ++
        List.replicate (rs.length - n' - 1) (2 * dp + e) := by
    rw [List.append_cons]
  refine ⟨_, _, _, _, _,
    debt_schedule_eq r (2 * dp + e) P n' fuel hn' h1' (by omega),
    schedPayments_getLast r (2 * dp + e) P n',
    loans_first_contributions_eq r dp e P n' rs.length fuel hn' h1' hlen' (by omega),
    ?_, ?_, ?_, hinv, heq, rfl⟩
  · intro t ht
    rw [hshape]
    exact sandwich_getD_lt _ _ _ n' _ t ht
  · rw [hshape]
    exact sandwich_getD_mid _ _ _ n' _
  · intro t h1t h2t
    rw [hshape]
    exact sandwich_getD_gt _ _ _ n' _ t h1t (by omega)

/-- Witness for C7 at principal 10, rate 0, payment 3, excess 0, over 5
flat return periods (nominal horizon 4 months, accelerated horizon 2). -/
theorem C7_loans_first_structure_witness :
    (0 < (10 : ℚ)) ∧ (0 ≤ (0 : ℚ)) ∧ (0 < (3 : ℚ)) ∧
    PayoffMonths 0 3 10 4 ∧ PayoffMonths 0 (2 * 3 + 0) 10 2 ∧
    (4 < (List.replicate 5 (0 : ℚ)).length) ∧
    (∃ sched c vals T lastPay,
      debt_schedule 10 0 (2 * 3 + 0) 10 = some sched ∧
      sched.payment.getLast? = some lastPay ∧
      loans_first_contributions (List.replicate 5 (0 : ℚ)).length 10 0 3 0 10 = some c ∧
      (∀ t < 2, (List.replicate 2 (0 : ℚ) ++ c).getD t 0 = 0) ∧
      (List.replicate 2 (0 : ℚ) ++ c).getD 2 0 = 3 - lastPay + 0 ∧
      (∀ t, 2 < t → t < (List.replicate 5 (0 : ℚ)).length →
        (List.replicate 2 (0 : ℚ) ++ c).getD t 0 = 2 * 3 + 0) ∧
      inv_schedule c ((List.replicate 5 (0 : ℚ)).drop 2) = some vals ∧
      loans_first_payout (List.replicate 5 (0 : ℚ)) 10 0 3 0 10 = .ok T ∧
      T.inv_value = List.replicate 2 0 ++ vals) :=
  ⟨by norm_num, by norm_num, by norm_num,
    ⟨by norm_num [iterBal, balStep], by
      intro k hk
      interval_cases k <;> norm_num [iterBal, balStep]⟩,
    ⟨by norm_num [iterBal, balStep], by
      intro k hk
      interval_cases k <;> norm_num [iterBal, balStep]⟩,
    by simp,
    C7_loans_first_structure (List.replicate 5 (0 : ℚ)) 10 0 3 0 4 2 10
      (by norm_num) (by norm_num) (by norm_num) (by norm_num)
      ⟨by norm_num [iterBal, balStep], by
        intro k hk
        interval_cases k <;> norm_num [iterBal, balStep]⟩
      ⟨by norm_num [iterBal, balStep], by
        intro k hk
        interval_cases k <;> norm_num [iterBal, balStep]⟩
      (by simp) (by norm_num)⟩

/-- **C8 counterexample**: the debt-first variant does not compare the
return-series length with the accelerated payoff horizon.  With principal
10, rate 0, payment 3, excess 0, the accelerated horizon is 2 months, yet
on a 4-period return series (strictly longer than 2) the call still fails
with InsufficientPeriods, because the source checks the nominal horizon
(4 months) in both variants. -/
theorem C8_counterexample :
    payoff_nmonths 10 (2 * 3 + 0) 0 20 = some 2 ∧
    (2 : ℕ) < (List.replicate 4 (0 : ℚ)).length ∧
    loans_first_payout (List.replicate 4 (0 : ℚ)) 10 0 3 0 20 =
      .error .insufficientPeriods := by
  refine ⟨by norm_num [payoff_nmonths, payoffLoop, balStep], by simp, ?_⟩
  norm_num [loans_first_payout, payoff_nmonths, payoffLoop, balStep]

/-- **C8 amended**: each comparator fails with InsufficientPeriods if and
only if the return series is no longer than the *nominal* payoff horizon
`payoff_nmonths(debt_amount, debt_payment, int_rate)` — the same bound in
both variants, not the accelerated horizon for the debt-first one. -/
theorem C8_insufficient_iff_nominal (rs : List ℚ) (P r dp e : ℚ) (n fuel : ℕ)
    (hn : payoff_nmonths P dp r fuel = some n) :
    (conc_payout rs P r dp e fuel = .error .insufficientPeriods ↔ rs.length ≤ n) ∧
    (loans_first_payout rs P r dp e fuel = .error .insufficientPeriods ↔
      rs.length ≤ n) := by
  constructor
  · unfold conc_payout
    rw [hn]
    simp only []
    by_cases h : rs.length ≤ n
    · rw [if_pos h]
      simp [h]
    · rw [if_neg h]
      refine iff_of_false ?_ h
      cases hds : debt_schedule P r dp fuel with
      | none => simp
      | some sched =>
        simp only []
        cases hcc : conc_contributions rs.length P r dp e fuel with
        | none => simp
        | some c =>
          simp only []
          cases hinv : inv_schedule c rs with
          | none => simp
          | some vals => simp
  · unfold loans_first_payout
    rw [hn]
    simp only []
    by_cases h : rs.length ≤ n
    · rw [if_pos h]
      simp [h]
    · rw [if_neg h]
      refine iff_of_false ?_ h
      cases hds : debt_schedule P r (2 * dp + e) fuel with
      | none => simp
      | some sched =>
        simp only []
        cases hlc : loans_first_contributions rs.length P r dp e fuel with
        | none => simp
        | some c =>
          simp only []
          cases hinv : inv_schedule c (rs.drop (sched.loan_schedule.length - 1)) with
          | none => simp
          | some vals => simp

/-- Witness for the amended C8 at principal 10, rate 0, payment 3 and a
4-period return series (nominal horizon 4). -/
theorem C8_insufficient_iff_nominal_witness :
    (payoff_nmonths 10 3 0 10 = some 4) ∧
    ((conc_payout (List.replicate 4 (0 : ℚ)) 10 0 3 0 10 =
        .error .insufficientPeriods ↔ (List.replicate 4 (0 : ℚ)).length ≤ 4) ∧
      (loans_first_payout (List.replicate 4 (0 : ℚ)) 10 0 3 0 10 =
        .error .insufficientPeriods ↔ (List.replicate 4 (0 : ℚ)).length ≤ 4)) :=
  ⟨by norm_num [payoff_nmonths, payoffLoop, balStep],
    C8_insufficient_iff_nominal (List.replicate 4 (0 : ℚ)) 10 0 3 0 4 10
      (by norm_num [payoff_nmonths, payoffLoop, balStep])⟩

/-- **C9**: with zero volatility and zero drift the GBM price-path
generator returns a constant series of `N` copies of the starting price,
for every choice of random shocks, of the `exp` function (provided it
maps 0 to 1, as the real exponential does), and of the `sqrt` function. -/
theorem C9_gbm_flat (expf sqrtf : ℚ → ℚ) (num_years : ℚ) (N : ℕ) (price_0 : ℚ)
    (shocks : List ℚ) (hy : 0 < num_years) (hN : 1 ≤ N) (hlen : shocks.length = N)
    (hexp : expf 0 = 1) :
    gen_gbm_price_series expf sqrtf num_years N price_0 0 0 shocks =
      List.replicate N price_0 := by
  simp only [gen_gbm_price_series]
  have harg : ∀ d s : ℚ,
      price_0 * expf (d * ((0 - 1 / 2 * (0 : ℚ) ^ 2) * (num_years / (N : ℚ))) +
        s * (0 * sqrtf (num_years / (N : ℚ)))) = price_0 := by
    intro d s
    have h0 : d * ((0 - 1 / 2 * (0 : ℚ) ^ 2) * (num_years / (N : ℚ))) +
        s * (0 * sqrtf (num_years / (N : ℚ))) = 0 := by ring
    rw [h0, hexp, mul_one]
  rw [zipWith_const _ price_0 _ _ harg]
  rw [List.length_map, List.length_range, cumsumFrom_length, hlen, Nat.min_self]
  obtain ⟨M, rfl⟩ : ∃ M, N = M + 1 := ⟨N - 1, by omega⟩
  have hdrop : (List.replicate (M + 1) price_0).dropLast = List.replicate M price_0 := by
    rw [List.replicate_succ']
    exact List.dropLast_concat
  rw [hdrop, List.replicate_succ]

/-- Witness for C9: one year, 12 periods, starting price 100, nonzero
shocks, `exp` modelled by a function with value 1 at 0. -/
theorem C9_gbm_flat_witness :
    (0 < (1 : ℚ)) ∧ (1 ≤ 12) ∧
    (((List.range 12).map (fun i : ℕ => (i : ℚ))).length = 12) ∧
    ((fun q : ℚ => 1 + q) 0 = 1) ∧
    gen_gbm_price_series (fun q : ℚ => 1 + q) (fun q : ℚ => q) 1 12 100 0 0
      ((List.range 12).map (fun i : ℕ => (i : ℚ))) = List.replicate 12 100 :=
  ⟨by norm_num, by norm_num, by simp, by norm_num,
    C9_gbm_flat (fun q : ℚ => 1 + q) (fun q : ℚ => q) 1 12 100
      ((List.range 12).map (fun i : ℕ => (i : ℚ))) (by norm_num) (by norm_num)
      (by simp) (by norm_num)⟩
